import Mathlib

/-!
Shallow embedding of `core/commands/ls.go` from the go-ipfs (kubo) repository:
the data model of the `ls` command (`LsLink`, `LsObject`, `LsOutput`), its `Run`
driver with the two aggregation policies (streaming vs. batch), and the
`tabularOutput` renderer.

External collaborators (the UnixFS traversal capability `api.Unixfs().Ls`,
the path parser `cmdutils.PathOrCidPath`, the CID encoder from
`cmdenv.GetCidEncoder`, and the name escaper `cmdenv.EscNonPrint`) are taken
as function parameters.  Go strings are modelled as Lean `String`; the
byte-wise comparison performed by `strings.Compare` is modelled on the
UTF-8 byte sequences of the strings.  The `text/tabwriter` column aligner is
external, so the renderer is modelled as the sequence of lines written to it
(each `fmt.Fprintf`/`Fprintln` call in the source writes exactly one line,
i.e. the byte stream handed to the tabwriter is the concatenation of these
lines, each followed by a newline).
-/

namespace KuboLs

/-- `coreiface.FileType` (`iface.TUnknown`, `iface.TFile`, `iface.TDirectory`,
`iface.TSymlink`): an integer type in Go, so modelled as `Int`. -/
abbrev FileType := Int

def TUnknown : FileType := 0

def TFileC : FileType := 1

def TDirectoryC : FileType := 2

def TSymlinkC : FileType := 3

/-- `unixfs_pb.Data_DataType`: the internal UnixFS type enum.
Its Go zero value is `TRaw` (= `Data_Raw`, code 0). -/
inductive Data_DataType where
  | TRaw
  | TDirectory
  | TFile
  | TMetadata
  | TSymlink
  | THAMTShard
deriving DecidableEq, Repr

/-- The `switch link.Type` statement of `LsCmd.Run` (ls.go lines 156-164):
`iface.TFile ↦ unixfs.TFile`, `iface.TDirectory ↦ unixfs.TDirectory`,
`iface.TSymlink ↦ unixfs.TSymlink`, and every other code falls through to
the zero value of `var ftype unixfs_pb.Data_DataType`, which is `TRaw` —
the catch-all bucket for unrecognized codes. -/
def classifyType (t : FileType) : Data_DataType :=
  if t = TFileC then .TFile
  else if t = TDirectoryC then .TDirectory
  else if t = TSymlinkC then .TSymlink
  else .TRaw

/-- `iface.DirEntry` as consumed by `LsCmd.Run`: the fields the loop body
reads (Name, Cid, Size, Type, Target, Mode, ModTime).  `Cid` is kept as an
opaque string to which the CID encoder is applied; `Mode` (os.FileMode) is a
machine word, modelled as `Nat`; `ModTime` (time.Time) is opaque, modelled
as `Int`. -/
structure DirEntry where
  Name : String
  Cid : String
  Size : Nat
  Typ : FileType
  Target : String
  Mode : Nat
  ModTime : Int
deriving DecidableEq, Repr

/-- `LsLink` (ls.go lines 24-31): printable data for a single ipld link. -/
structure LsLink where
  Name : String
  Hash : String
  Size : Nat
  Typ : Data_DataType
  Target : String
  Mode : Nat
  ModTime : Int
deriving DecidableEq, Repr

/-- `LsObject` (ls.go lines 35-38): an element of LsOutput, all or part of a
directory.  `Hash` holds the group key (the original requested path string,
see lines 102 and 127). -/
structure LsObject where
  Hash : String
  Links : List LsLink
deriving DecidableEq, Repr

/-- `LsOutput` (ls.go lines 42-44): one unit emitted to the response
emitter. -/
structure LsOutput where
  Objects : List LsObject
deriving DecidableEq, Repr

/-- UTF-8 byte sequence of a string, as Go sees the string. -/
def strBytes (s : String) : List Nat :=
  s.toUTF8.data.toList.map (fun b => b.toNat)

/-- Byte-wise lexicographic `≤` on byte lists: `bytesLe a b = true` iff
`strings.Compare a b <= 0` holds on the corresponding Go strings. -/
def bytesLe : List Nat → List Nat → Bool
  | [], _ => true
  | _ :: _, [] => false
  | a :: as, b :: bs =>
    if a < b then true
    else if b < a then false
    else bytesLe as bs

/-- The comparator of `slices.SortFunc` at ls.go lines 122-124, as a boolean
`≤`: `strings.Compare(a.Name, b.Name) <= 0`. -/
def nameLe (a b : LsLink) : Bool :=
  bytesLe (strBytes a.Name) (strBytes b.Name)

/-- The `slices.SortFunc(outputLinks, ...)` call at ls.go lines 122-124.
`slices.SortFunc` sorts by the comparator (the relative order of equal-name
links is unspecified in Go); modelled with `List.mergeSort`, which produces
a list sorted by the same comparator. -/
def sortLinks (links : List LsLink) : List LsLink :=
  links.mergeSort nameLe

/-- Conversion of one received `iface.DirEntry` into an `LsLink`
(ls.go lines 155-175), with `enc` the CID encoder `enc.Encode`. -/
def convertLink (enc : String → String) (link : DirEntry) : LsLink :=
  { Name := link.Name
    Hash := enc link.Cid
    Size := link.Size
    Typ := classifyType link.Typ
    Target := link.Target
    Mode := link.Mode
    ModTime := link.ModTime }

/-- Result of one traversal (`api.Unixfs().Ls`): the entries delivered on
the `results` channel before it closes, then the terminal error read from
`lsErr` (ls.go lines 147-152 and 180-182).  Entries listed in `entries` are
delivered even when `err` is set: the consumer drains the feed before
reading the terminal error. -/
structure TraversalResult where
  entries : List DirEntry
  err : Option String
deriving DecidableEq, Repr

/-- Result of a whole `LsCmd.Run` invocation: the `LsOutput` units emitted
to the response emitter in order, the log of traversal invocations (parsed
path, resolve-children flag) in order, and the returned error. -/
structure RunResult where
  emitted : List LsOutput
  calls : List (String × Bool)
  err : Option String
deriving DecidableEq, Repr

/-- The path loop of `LsCmd.Run` (ls.go lines 141-185) together with the
mode-dependent `processDir`/`done` closures (lines 96-136):

* `parse` models `cmdutils.PathOrCidPath`;
* `ls` models `api.Unixfs().Ls` (path and resolve-children parameter);
* `enc` models the CID encoder;
* `emitted`/`calls` accumulate the observable behaviour;
* `output` is the batch accumulator `output := make([]LsObject, len(req.Arguments))`,
  represented as the list of slots filled so far (slots are filled in request
  order by `dirDone(i)`, and `done` is reached only after all are filled).

Streaming (`stream = true`): `processLink` emits one `LsOutput` per link
with `Hash: path` (the original `paths[i]`, line 102), `dirDone` is a no-op,
`done` emits nothing.  Batch (`stream = false`): `processLink` appends the
link to the per-directory buffer, `dirDone(i)` sorts the buffer by name and
stores `LsObject{Hash: paths[i], Links: sorted}`, `done` emits the single
aggregated `LsOutput` (lines 110-136).  On a parse error or a terminal
traversal error the function returns that error at once: later paths are
not processed, and in batch mode `done` is never reached. -/
def runLoop (stream : Bool) (resolveChildren : Bool)
    (parse : String → Except String String)
    (ls : String → Bool → TraversalResult)
    (enc : String → String) :
    List String → List LsOutput → List (String × Bool) → List LsObject → RunResult
  | [], emitted, calls, output =>
    if stream then { emitted := emitted, calls := calls, err := none }
    else { emitted := emitted ++ [{ Objects := output }], calls := calls, err := none }
  | fpath :: rest, emitted, calls, output =>
    match parse fpath with
    | .error e => { emitted := emitted, calls := calls, err := some e }
    | .ok pth =>
      let calls := calls ++ [(pth, resolveChildren)]
      let links := ((ls pth resolveChildren).entries).map (convertLink enc)
      let emitted := if stream then
          emitted ++ links.map (fun link =>
            { Objects := [{ Hash := fpath, Links := [link] }] })
        else emitted
      match (ls pth resolveChildren).err with
      | some e => { emitted := emitted, calls := calls, err := some e }
      | none =>
        let output := if stream then output
          else output ++ [{ Hash := fpath, Links := sortLinks links }]
        runLoop stream resolveChildren parse ls enc rest emitted calls output

/-- `LsCmd.Run` (ls.go lines 75-186): reads the three option flags, then
runs the path loop.  The traversal is always invoked with
`options.Unixfs.ResolveChildren(resolveSize || resolveType)` (line 151). -/
def LsCmdRun (stream resolveType resolveSize : Bool)
    (parse : String → Except String String)
    (ls : String → Bool → TraversalResult)
    (enc : String → String) (paths : List String) : RunResult :=
  runLoop stream (resolveSize || resolveType) parse ls enc paths [] [] []

/-- Outcome of processing one requested path: the parse error, or else the
terminal error of the traversal (with resolve-children flag `rc`). -/
def pathOutcome (parse : String → Except String String)
    (ls : String → Bool → TraversalResult) (rc : Bool) (p : String) :
    Option String :=
  match parse p with
  | .error e => some e
  | .ok pth => (ls pth rc).err

/-- The links a requested path contributes: its delivered entries converted
by `convertLink` (empty when the path does not parse). -/
def pathLinks (parse : String → Except String String)
    (ls : String → Bool → TraversalResult) (enc : String → String)
    (rc : Bool) (p : String) : List LsLink :=
  match parse p with
  | .error _ => []
  | .ok pth => ((ls pth rc).entries).map (convertLink enc)

/-- The parsed form of a requested path (arbitrary when parsing fails). -/
def parsedPath (parse : String → Except String String) (p : String) : String :=
  match parse p with
  | .error _ => ""
  | .ok pth => pth

/-- The traversal invocations one requested path causes: none when parsing
fails, otherwise a single call on the parsed path with the resolve-children
flag. -/
def pathCalls (parse : String → Except String String) (rc : Bool)
    (p : String) : List (String × Bool) :=
  match parse p with
  | .error _ => []
  | .ok pth => [(pth, rc)]

/-- The `LsObject` the batch policy stores for a successful path
(ls.go lines 120-130). -/
def batchObject (parse : String → Except String String)
    (ls : String → Bool → TraversalResult) (enc : String → String)
    (rc : Bool) (p : String) : LsObject :=
  { Hash := p, Links := sortLinks (pathLinks parse ls enc rc p) }

/-- The `LsOutput` units the streaming policy emits for one path
(ls.go lines 100-106): one unit per link, group key the original path. -/
def streamUnits (parse : String → Except String String)
    (ls : String → Bool → TraversalResult) (enc : String → String)
    (rc : Bool) (p : String) : List LsOutput :=
  (pathLinks parse ls enc rc p).map (fun link =>
    { Objects := [{ Hash := p, Links := [link] }] })

/-- The header row written at ls.go lines 244-250: `Hash\tName`, or
`Hash\tSize\tName` when the size column is enabled. -/
def headerLine (size : Bool) : String :=
  if size then "Hash\tSize\tName" else "Hash\tName"

/-- The minimum tab width handed to `tabwriter.NewWriter`
(ls.go lines 224-229): a best guess in streaming mode, since tabs cannot be
aligned automatically there.  It parametrizes only the external column
aligner, not the text written to it. -/
def minTabWidth (stream : Bool) : Nat :=
  if stream then 10 else 1

/-- One entry row (ls.go lines 254-272): directory-like kinds
(`TDirectory`, `THAMTShard`, `TMetadata`) print `-` in the size column and
a `/` after the name; every other kind prints the literal size.  `esc`
models `cmdenv.EscNonPrint`.  The format strings are
`"%[1]s\t-\t%[3]s/\n"` / `"%[1]s\t%[3]s/\n"` for directory-like kinds and
`"%s\t%v\t%s\n"` / `"%[1]s\t%[3]s\n"` otherwise, applied to
`(link.Hash, link.Size, esc link.Name)`. -/
def renderLink (size : Bool) (esc : String → String) (link : LsLink) : String :=
  match link.Typ with
  | .TDirectory | .THAMTShard | .TMetadata =>
    if size then link.Hash ++ "\t-\t" ++ esc link.Name ++ "/"
    else link.Hash ++ "\t" ++ esc link.Name ++ "/"
  | _ =>
    if size then link.Hash ++ "\t" ++ toString link.Size ++ "\t" ++ esc link.Name
    else link.Hash ++ "\t" ++ esc link.Name

/-- The body of the `for _, object := range out.Objects` loop of
`tabularOutput` (ls.go lines 235-274), acting on the pair
(lines written so far, `lastObjectHash`).  When the group key changes (and
breaks are not ignored): with multiple folders, a blank line (unless the
previous key is empty) and then the `"<groupKey>:"` label; then the header
row when headers are enabled; then `lastObjectHash` is updated.  In every
case the entry rows follow. -/
def renderObject (headers size multipleFolders ignoreBreaks : Bool)
    (esc : String → String) (st : List String × String) (object : LsObject) :
    List String × String :=
  let lines := st.1
  let lastObjectHash := st.2
  let st2 :=
    if !ignoreBreaks && object.Hash ≠ lastObjectHash then
      let lines :=
        if multipleFolders then
          (if lastObjectHash ≠ "" then lines ++ [""] else lines)
            ++ [object.Hash ++ ":"]
        else lines
      let lines := if headers then lines ++ [headerLine size] else lines
      (lines, object.Hash)
    else (lines, lastObjectHash)
  (st2.1 ++ object.Links.map (renderLink size esc), st2.2)

/-- `tabularOutput` (ls.go lines 218-277) as the list of lines written to
the tabwriter plus the returned `lastObjectHash`.  `args` is
`req.Arguments` (only its length matters: `multipleFolders`, line 231); the
`headers` and `size` options are passed directly.  The `stream` option only
selects `minTabWidth` for the external aligner and does not affect the
lines written. -/
def tabularOutput (headers size : Bool) (args : List String)
    (esc : String → String) (out : LsOutput) (lastObjectHash : String)
    (ignoreBreaks : Bool) : List String × String :=
  let multipleFolders := args.length > 1
  out.Objects.foldl (renderObject headers size multipleFolders ignoreBreaks esc)
    ([], lastObjectHash)

/-- The CLI `PostRun` loop (ls.go lines 187-204): render each received
`LsOutput` in turn, threading `lastObjectHash` (initially `""`,
`ignoreBreaks = false`), concatenating the printed lines. -/
def postRunCLI (headers size : Bool) (args : List String)
    (esc : String → String) (outs : List LsOutput) : List String :=
  (outs.foldl (fun st out =>
    let r := tabularOutput headers size args esc out st.2 false
    (st.1 ++ r.1, r.2)) ([], "")).1

/-! Properties of the byte-wise comparator. -/

theorem bytesLe_total (a b : List Nat) : (bytesLe a b || bytesLe b a) = true := by
  induction a generalizing b with
  | nil => simp [bytesLe]
  | cons x xs ih =>
    cases b with
    | nil => simp [bytesLe]
    | cons y ys =>
      simp only [bytesLe]
      rcases Nat.lt_trichotomy x y with h | h | h
      · simp [h]
      · subst h
        simp [Nat.lt_irrefl, ih ys]
      · simp [h, Nat.lt_asymm h]

theorem bytesLe_trans (a b c : List Nat) (hab : bytesLe a b = true)
    (hbc : bytesLe b c = true) : bytesLe a c = true := by
  induction a generalizing b c with
  | nil => simp [bytesLe]
  | cons x xs ih =>
    cases b with
    | nil => simp [bytesLe] at hab
    | cons y ys =>
      cases c with
      | nil => simp [bytesLe] at hbc
      | cons z zs =>
        simp only [bytesLe] at hab hbc ⊢
        by_cases hxy : x < y
        · simp only [hxy, if_true] at hab
          by_cases hyz : y < z
          · simp [Nat.lt_trans hxy hyz]
          · by_cases hzy : z < y
            · simp [hyz, hzy] at hbc
            · have : y = z := Nat.le_antisymm (Nat.le_of_not_lt hzy) (Nat.le_of_not_lt hyz)
              subst this
              simp [hxy]
        · by_cases hyx : y < x
          · simp [hxy, hyx] at hab
          · have hxyeq : x = y := Nat.le_antisymm (Nat.le_of_not_lt hyx) (Nat.le_of_not_lt hxy)
            subst hxyeq
            simp only [Nat.lt_irrefl, if_false] at hab
            by_cases hyz : x < z
            · simp [hyz]
            · by_cases hzy : z < x
              · simp [hyz, hzy] at hbc
              · have : x = z := Nat.le_antisymm (Nat.le_of_not_lt hzy) (Nat.le_of_not_lt hyz)
                subst this
                simp only [Nat.lt_irrefl, if_false] at hbc ⊢
                exact ih ys zs hab hbc

theorem nameLe_total (a b : LsLink) : (nameLe a b || nameLe b a) = true :=
  bytesLe_total (strBytes a.Name) (strBytes b.Name)

theorem nameLe_trans (a b c : LsLink) (hab : nameLe a b = true)
    (hbc : nameLe b c = true) : nameLe a c = true :=
  bytesLe_trans (strBytes a.Name) (strBytes b.Name) (strBytes c.Name) hab hbc

/-- `sortLinks` sorts by `nameLe`. -/
theorem sortLinks_pairwise (links : List LsLink) :
    (sortLinks links).Pairwise (fun a b => nameLe a b = true) :=
  List.sorted_mergeSort (fun a b c => nameLe_trans a b c) nameLe_total links

/-! Characterization of the run loop. -/

theorem runLoop_nil (stream rc : Bool) (parse : String → Except String String)
    (ls : String → Bool → TraversalResult) (enc : String → String)
    (emitted : List LsOutput) (calls : List (String × Bool))
    (output : List LsObject) :
    runLoop stream rc parse ls enc [] emitted calls output =
      if stream then { emitted := emitted, calls := calls, err := none }
      else { emitted := emitted ++ [{ Objects := output }], calls := calls, err := none } := by
  simp [runLoop]

theorem runLoop_cons_ok (stream rc : Bool) (parse : String → Except String String)
    (ls : String → Bool → TraversalResult) (enc : String → String)
    (p : String) (rest : List String) (emitted : List LsOutput)
    (calls : List (String × Bool)) (output : List LsObject)
    (hok : pathOutcome parse ls rc p = none) :
    runLoop stream rc parse ls enc (p :: rest) emitted calls output =
      runLoop stream rc parse ls enc rest
        (emitted ++ (if stream then streamUnits parse ls enc rc p else []))
        (calls ++ pathCalls parse rc p)
        (output ++ (if stream then [] else [batchObject parse ls enc rc p])) := by
  unfold pathOutcome at hok
  cases hp : parse p with
  | error e => rw [hp] at hok; simp at hok
  | ok pth =>
    rw [hp] at hok
    replace hok : (ls pth rc).err = none := hok
    simp only [runLoop, hp, hok]
    cases stream <;>
      simp [streamUnits, pathLinks, batchObject, pathCalls, hp, hok]

theorem runLoop_cons_fail (stream rc : Bool) (parse : String → Except String String)
    (ls : String → Bool → TraversalResult) (enc : String → String)
    (p : String) (e : String) (rest : List String) (emitted : List LsOutput)
    (calls : List (String × Bool)) (output : List LsObject)
    (hfail : pathOutcome parse ls rc p = some e) :
    runLoop stream rc parse ls enc (p :: rest) emitted calls output =
      { emitted := emitted ++ (if stream then streamUnits parse ls enc rc p else [])
        calls := calls ++ pathCalls parse rc p
        err := some e } := by
  unfold pathOutcome at hfail
  cases hp : parse p with
  | error e2 =>
    rw [hp] at hfail
    simp only [Option.some.injEq] at hfail
    subst hfail
    simp only [runLoop, hp]
    cases stream <;> simp [streamUnits, pathLinks, pathCalls, hp]
  | ok pth =>
    rw [hp] at hfail
    replace hfail : (ls pth rc).err = some e := hfail
    simp only [runLoop, hp, hfail]
    cases stream <;>
      simp [streamUnits, pathLinks, pathCalls, hp, hfail]

theorem runLoop_append_ok (stream rc : Bool) (parse : String → Except String String)
    (ls : String → Bool → TraversalResult) (enc : String → String)
    (pre : List String)
    (Hok : ∀ q ∈ pre, pathOutcome parse ls rc q = none)
    (l : List String) (emitted : List LsOutput) (calls : List (String × Bool))
    (output : List LsObject) :
    runLoop stream rc parse ls enc (pre ++ l) emitted calls output =
      runLoop stream rc parse ls enc l
        (emitted ++ (if stream then pre.flatMap (streamUnits parse ls enc rc) else []))
        (calls ++ pre.flatMap (pathCalls parse rc))
        (output ++ (if stream then [] else pre.map (batchObject parse ls enc rc))) := by
  induction pre generalizing emitted calls output with
  | nil => simp
  | cons q qs ih =>
    have hq : pathOutcome parse ls rc q = none := Hok q (List.mem_cons_self q qs)
    have Hqs : ∀ r ∈ qs, pathOutcome parse ls rc r = none := fun r hr =>
      Hok r (List.mem_cons_of_mem q hr)
    rw [List.cons_append,
      runLoop_cons_ok stream rc parse ls enc q (qs ++ l) emitted calls output hq,
      ih Hqs]
    cases stream <;> simp [List.append_assoc]

theorem pathCalls_snd (parse : String → Except String String) (rc : Bool)
    (p : String) : ∀ c ∈ pathCalls parse rc p, c.2 = rc := by
  intro c hc
  unfold pathCalls at hc
  cases hp : parse p with
  | error e => rw [hp] at hc; simp at hc
  | ok pth => rw [hp] at hc; simp at hc; rw [hc]

theorem runLoop_calls_sub (stream rc : Bool) (parse : String → Except String String)
    (ls : String → Bool → TraversalResult) (enc : String → String)
    (l : List String) :
    ∀ emitted calls output c,
      c ∈ (runLoop stream rc parse ls enc l emitted calls output).calls →
      c ∈ calls ∨ c.2 = rc := by
  induction l with
  | nil =>
    intro emitted calls output c hc
    rw [runLoop_nil] at hc
    cases stream <;> simp at hc <;> exact Or.inl hc
  | cons p rest ih =>
    intro emitted calls output c hc
    cases ho : pathOutcome parse ls rc p with
    | none =>
      rw [runLoop_cons_ok stream rc parse ls enc p rest emitted calls output ho] at hc
      rcases ih _ _ _ c hc with h | h
      · rcases List.mem_append.mp h with h | h
        · exact Or.inl h
        · exact Or.inr (pathCalls_snd parse rc p c h)
      · exact Or.inr h
    | some e =>
      rw [runLoop_cons_fail stream rc parse ls enc p e rest emitted calls output ho] at hc
      simp only at hc
      rcases List.mem_append.mp hc with h | h
      · exact Or.inl h
      · exact Or.inr (pathCalls_snd parse rc p c h)

/-! The claims. -/

/-- Claim C1: for every list of requested paths whose traversals all succeed,
batch (non-streaming) mode emits exactly one `LsOutput`, containing one
`LsObject` per requested path in request order, with the original path
string as the group key (empty `Links` included when a path yields zero
entries), and the `Links` of each object sorted ascending by `Name` under
byte-wise lexicographic comparison. -/
theorem ls_batch_one_sorted_unit (resolveType resolveSize : Bool)
    (parse : String → Except String String)
    (ls : String → Bool → TraversalResult) (enc : String → String)
    (paths : List String)
    (Hok : ∀ p ∈ paths, pathOutcome parse ls (resolveSize || resolveType) p = none) :
    (LsCmdRun false resolveType resolveSize parse ls enc paths).err = none ∧
    (LsCmdRun false resolveType resolveSize parse ls enc paths).emitted =
      [{ Objects := paths.map (batchObject parse ls enc (resolveSize || resolveType)) }] ∧
    ∀ u ∈ (LsCmdRun false resolveType resolveSize parse ls enc paths).emitted,
      u.Objects.length = paths.length ∧
      ∀ o ∈ u.Objects, o.Links.Pairwise (fun a b => nameLe a b = true) := by
  have h := runLoop_append_ok false (resolveSize || resolveType) parse ls enc
    paths Hok [] [] [] []
  rw [List.append_nil] at h
  unfold LsCmdRun
  rw [h, runLoop_nil]
  simp only [Bool.false_eq_true, if_false, List.append_nil, List.nil_append]
  refine ⟨by trivial, by trivial, ?_⟩
  intro u hu
  rw [List.mem_singleton] at hu
  subst hu
  refine ⟨by simp, ?_⟩
  intro o ho
  simp only [List.mem_map] at ho
  obtain ⟨p, hp, rfl⟩ := ho
  exact sortLinks_pairwise _

/-- Claim C2: in streaming mode, when every traversal succeeds, the run
emits exactly one `LsOutput` per discovered entry, in order — each unit a
single `LsObject` holding a single link whose group key is the original
requested path string (the unit is built from `paths[i]`, not from the
parsed/resolved path) — and the number of emitted units equals the total
entry count across all paths. -/
theorem ls_stream_unit_per_entry (resolveType resolveSize : Bool)
    (parse : String → Except String String)
    (ls : String → Bool → TraversalResult) (enc : String → String)
    (paths : List String)
    (Hok : ∀ p ∈ paths, pathOutcome parse ls (resolveSize || resolveType) p = none) :
    (LsCmdRun true resolveType resolveSize parse ls enc paths).err = none ∧
    (LsCmdRun true resolveType resolveSize parse ls enc paths).emitted =
      paths.flatMap (streamUnits parse ls enc (resolveSize || resolveType)) ∧
    (∀ u ∈ (LsCmdRun true resolveType resolveSize parse ls enc paths).emitted,
      ∃ p link, p ∈ paths ∧ u = { Objects := [{ Hash := p, Links := [link] }] }) ∧
    (LsCmdRun true resolveType resolveSize parse ls enc paths).emitted.length =
      (paths.map (fun p =>
        (pathLinks parse ls enc (resolveSize || resolveType) p).length)).sum := by
  have h := runLoop_append_ok true (resolveSize || resolveType) parse ls enc
    paths Hok [] [] [] []
  rw [List.append_nil] at h
  unfold LsCmdRun
  rw [h, runLoop_nil]
  simp only [if_true, List.append_nil, List.nil_append]
  refine ⟨by trivial, by trivial, ?_, ?_⟩
  · intro u hu
    simp only [List.mem_flatMap] at hu
    obtain ⟨p, hp, hu⟩ := hu
    unfold streamUnits at hu
    simp only [List.mem_map] at hu
    obtain ⟨link, _, rfl⟩ := hu
    exact ⟨p, link, hp, rfl⟩
  · rw [List.length_flatMap]
    congr 1
    apply List.map_congr_left
    intro p hp
    simp [streamUnits, Function.comp]

/-- Claim C3: if the processing of some path fails (parse error or terminal
traversal error) after a prefix of successful paths, the run returns that
error and processes no further paths (the result is the same whatever comes
after the failing path); in streaming mode the units already emitted — for
the earlier paths and for the already-delivered entries of the failing path —
stand, while in batch mode nothing at all is emitted. -/
theorem ls_error_aborts (resolveType resolveSize : Bool)
    (parse : String → Except String String)
    (ls : String → Bool → TraversalResult) (enc : String → String)
    (pre rest : List String) (p e : String)
    (Hpre : ∀ q ∈ pre, pathOutcome parse ls (resolveSize || resolveType) q = none)
    (Hfail : pathOutcome parse ls (resolveSize || resolveType) p = some e) :
    (∀ stream,
      LsCmdRun stream resolveType resolveSize parse ls enc (pre ++ p :: rest) =
        LsCmdRun stream resolveType resolveSize parse ls enc (pre ++ [p])) ∧
    (∀ stream,
      (LsCmdRun stream resolveType resolveSize parse ls enc (pre ++ p :: rest)).err =
        some e) ∧
    (LsCmdRun false resolveType resolveSize parse ls enc (pre ++ p :: rest)).emitted =
      [] ∧
    (LsCmdRun true resolveType resolveSize parse ls enc (pre ++ p :: rest)).emitted =
      pre.flatMap (streamUnits parse ls enc (resolveSize || resolveType)) ++
        streamUnits parse ls enc (resolveSize || resolveType) p := by
  have key : ∀ (stream : Bool) (rest2 : List String),
      LsCmdRun stream resolveType resolveSize parse ls enc (pre ++ p :: rest2) =
        { emitted :=
            (if stream then
              pre.flatMap (streamUnits parse ls enc (resolveSize || resolveType))
            else []) ++
            (if stream then
              streamUnits parse ls enc (resolveSize || resolveType) p
            else [])
          calls := pre.flatMap (pathCalls parse (resolveSize || resolveType)) ++
            pathCalls parse (resolveSize || resolveType) p
          err := some e } := by
    intro stream rest2
    unfold LsCmdRun
    rw [runLoop_append_ok stream (resolveSize || resolveType) parse ls enc pre Hpre]
    rw [runLoop_cons_fail stream (resolveSize || resolveType) parse ls enc p e
      rest2 _ _ _ Hfail]
    simp
  refine ⟨?_, ?_, ?_, ?_⟩
  · intro stream
    rw [key stream rest, key stream []]
  · intro stream
    rw [key stream rest]
  · rw [key false rest]
    simp
  · rw [key true rest]
    simp

/-- Claim C8: every traversal invocation the run performs — in either mode —
carries a resolve-children parameter equal to `resolveSize || resolveType`,
exactly as `options.Unixfs.ResolveChildren(resolveSize || resolveType)` is
passed at ls.go line 151. -/
theorem ls_resolve_children_coupling (stream resolveType resolveSize : Bool)
    (parse : String → Except String String)
    (ls : String → Bool → TraversalResult) (enc : String → String)
    (paths : List String) :
    ∀ c ∈ (LsCmdRun stream resolveType resolveSize parse ls enc paths).calls,
      c.2 = (resolveSize || resolveType) := by
  intro c hc
  unfold LsCmdRun at hc
  rcases runLoop_calls_sub stream (resolveSize || resolveType) parse ls enc
    paths [] [] [] c hc with h | h
  · simp at h
  · exact h

/-! Renderer lemmas. -/

/-- The directory-like kinds of the `switch link.Type` at ls.go line 257:
`TDirectory`, `THAMTShard`, `TMetadata`. -/
def isDirKind : Data_DataType → Bool
  | .TDirectory | .THAMTShard | .TMetadata => true
  | _ => false

theorem renderObject_snd_false (headers size m : Bool) (esc : String → String)
    (st : List String × String) (object : LsObject) :
    (renderObject headers size m false esc st object).2 = object.Hash := by
  obtain ⟨lines, last⟩ := st
  by_cases h : object.Hash = last
  · simp [renderObject, h]
  · simp [renderObject, h]

theorem renderObject_append (headers size m ib : Bool) (esc : String → String)
    (st : List String × String) (object : LsObject) :
    renderObject headers size m ib esc st object =
      (st.1 ++ (renderObject headers size m ib esc ([], st.2) object).1,
       (renderObject headers size m ib esc ([], st.2) object).2) := by
  obtain ⟨lines, last⟩ := st
  by_cases h : object.Hash = last
  · simp [renderObject, h]
  · cases ib <;> cases m <;> cases headers <;> by_cases h0 : last = ""
    all_goals first
      | (subst h0; simp [renderObject, h, List.append_assoc])
      | simp [renderObject, h, h0, List.append_assoc]

theorem foldl_renderObject_append (headers size m ib : Bool)
    (esc : String → String) (os : List LsObject) :
    ∀ st : List String × String,
      os.foldl (renderObject headers size m ib esc) st =
        (st.1 ++ (os.foldl (renderObject headers size m ib esc) ([], st.2)).1,
         (os.foldl (renderObject headers size m ib esc) ([], st.2)).2) := by
  induction os with
  | nil => intro st; simp
  | cons o os ih =>
    intro st
    simp only [List.foldl_cons]
    rw [ih (renderObject headers size m ib esc st o),
      ih (renderObject headers size m ib esc ([], st.2) o),
      renderObject_append headers size m ib esc st o]
    simp [List.append_assoc]

theorem foldl_renderObject_snd_false (headers size m : Bool)
    (esc : String → String) (os : List LsObject) :
    ∀ st : List String × String,
      (os.foldl (renderObject headers size m false esc) st).2 =
        (os.map LsObject.Hash).getLastD st.2 := by
  induction os with
  | nil => intro st; simp
  | cons o os ih =>
    intro st
    simp only [List.foldl_cons, List.map_cons, List.getLastD_cons]
    rw [ih (renderObject headers size m false esc st o)]
    rw [renderObject_snd_false headers size m esc st o]

theorem tabularOutput_snd (headers size : Bool) (args : List String)
    (esc : String → String) (u : LsOutput) (last : String) :
    (tabularOutput headers size args esc u last false).2 =
      (u.Objects.map LsObject.Hash).getLastD last := by
  unfold tabularOutput
  exact foldl_renderObject_snd_false headers size _ esc u.Objects ([], last)

theorem tabularOutput_append (headers size : Bool) (args : List String)
    (esc : String → String) (u1 u2 : LsOutput) (last : String) (ib : Bool) :
    tabularOutput headers size args esc { Objects := u1.Objects ++ u2.Objects }
        last ib =
      ((tabularOutput headers size args esc u1 last ib).1 ++
        (tabularOutput headers size args esc u2
          (tabularOutput headers size args esc u1 last ib).2 ib).1,
       (tabularOutput headers size args esc u2
          (tabularOutput headers size args esc u1 last ib).2 ib).2) := by
  unfold tabularOutput
  rw [List.foldl_append]
  exact foldl_renderObject_append headers size _ ib esc u2.Objects _

/-- Claim C9: with breaks enabled, the renderer returns the group key of
the last group in the rendered `LsOutput` (the threaded prior key when the
unit is empty, and unchanged when the unit repeats the same group, since
the key of that group is returned again), and rendering unit-by-unit while
threading the returned key is equivalent to rendering the concatenated unit
once: the lines concatenate and the final keys agree. -/
theorem ls_render_threads_last_key (headers size : Bool) (args : List String)
    (esc : String → String) (u1 u2 : LsOutput) (last : String) :
    (tabularOutput headers size args esc u1 last false).2 =
      (u1.Objects.map LsObject.Hash).getLastD last ∧
    tabularOutput headers size args esc { Objects := u1.Objects ++ u2.Objects }
        last false =
      ((tabularOutput headers size args esc u1 last false).1 ++
        (tabularOutput headers size args esc u2
          (tabularOutput headers size args esc u1 last false).2 false).1,
       (tabularOutput headers size args esc u2
          (tabularOutput headers size args esc u1 last false).2 false).2) :=
  ⟨tabularOutput_snd headers size args esc u1 last,
    tabularOutput_append headers size args esc u1 u2 last false⟩

/-- Claim C4: an entry of directory kind or directory-shard variant
(`TDirectory`, `THAMTShard`, `TMetadata`) renders with `-` in the size
column (when the size column is enabled) and its name suffixed by `/`; an
entry of any other kind never gets the `/` suffix and shows its literal
size value when the size column is enabled. -/
theorem ls_dir_entry_rendering (size : Bool) (esc : String → String)
    (link : LsLink) :
    (isDirKind link.Typ = true →
      renderLink size esc link =
        link.Hash ++ (if size then "\t-\t" else "\t") ++ esc link.Name ++ "/") ∧
    (isDirKind link.Typ = false →
      renderLink size esc link =
        link.Hash ++ "\t" ++ (if size then toString link.Size ++ "\t" else "")
          ++ esc link.Name) := by
  obtain ⟨n, h, sz, t, tg, mo, mt⟩ := link
  cases t <;> cases size <;>
    simp [renderLink, isDirKind, String.append_assoc, String.append_empty]

/-- Claim C5: when there is more than one requested path, rendering an
`LsOutput` holding one group against a threaded prior key prints — iff the
key differs from the prior one — a `<groupKey>:` label line first (preceded
by a blank line unless the prior key is empty, i.e. except before the very
first group), then the header row exactly once if headers are requested,
then the entry rows, returning the key of the group; when the group key equals
the threaded prior key (consecutive units of the same group) neither label
nor header is repeated and the key is returned unchanged. -/
theorem ls_group_label_header_once (headers size : Bool) (args : List String)
    (esc : String → String) (object : LsObject) (last : String)
    (hm : args.length > 1) :
    (last ≠ object.Hash →
      tabularOutput headers size args esc { Objects := [object] } last false =
        ((if last ≠ "" then [""] else []) ++ [object.Hash ++ ":"] ++
          (if headers then [headerLine size] else []) ++
          object.Links.map (renderLink size esc),
         object.Hash)) ∧
    (last = object.Hash →
      tabularOutput headers size args esc { Objects := [object] } last false =
        (object.Links.map (renderLink size esc), last)) := by
  constructor
  · intro hne
    have h1 : object.Hash ≠ last := fun h => hne h.symm
    cases headers <;> by_cases h0 : last = ""
    all_goals first
      | (subst h0; simp [tabularOutput, renderObject, hm, h1, List.append_assoc])
      | simp [tabularOutput, renderObject, hm, h1, h0, List.append_assoc]
  · intro heq
    subst heq
    simp [tabularOutput, renderObject]

/-- Claim C7: the kind classification maps the recognized external file
type codes to the corresponding internal enum values, and every other code
— any integer other than `iface.TFile`, `iface.TDirectory`,
`iface.TSymlink` — falls through to the zero value `TRaw` of the internal enum,
the unknown/other bucket (which is none of the three mapped kinds); the
mapping is total and never produces an error. -/
theorem ls_unknown_type_maps_to_raw :
    classifyType TFileC = .TFile ∧ classifyType TDirectoryC = .TDirectory ∧
    classifyType TSymlinkC = .TSymlink ∧
    (∀ t : FileType, t ≠ TFileC → t ≠ TDirectoryC → t ≠ TSymlinkC →
      classifyType t = .TRaw) ∧
    (Data_DataType.TRaw ≠ .TFile ∧ Data_DataType.TRaw ≠ .TDirectory ∧
      Data_DataType.TRaw ≠ .TSymlink) := by
  refine ⟨by decide, by decide, by decide, ?_, by decide, by decide, by decide⟩
  intro t h1 h2 h3
  simp [classifyType, h1, h2, h3]

/-- Claim C10: the rendered text never depends on the `Mode` and `ModTime`
fields of the links (which exist on `LsLink` for the structured output but
are not printed, see the TODO at ls.go line 271): changing those two fields
arbitrarily in every link of an `LsOutput` leaves the rendered lines and
the returned group key unchanged, for every flag setting and prior key. -/
theorem ls_render_ignores_mode_modtime (headers size : Bool)
    (args : List String) (esc : String → String) (last : String) (ib : Bool)
    (fMode : LsLink → Nat) (fTime : LsLink → Int) (out : LsOutput) :
    tabularOutput headers size args esc
      { Objects := out.Objects.map (fun o =>
          { Hash := o.Hash
            Links := o.Links.map (fun l =>
              { l with Mode := fMode l, ModTime := fTime l }) }) }
      last ib =
    tabularOutput headers size args esc out last ib := by
  have hobj : ∀ (st : List String × String) (o : LsObject),
      renderObject headers size (args.length > 1) ib esc st
        { Hash := o.Hash
          Links := o.Links.map (fun l =>
            { l with Mode := fMode l, ModTime := fTime l }) } =
      renderObject headers size (args.length > 1) ib esc st o := by
    intro st o
    have hmap : (o.Links.map (fun l =>
        { l with Mode := fMode l, ModTime := fTime l })).map (renderLink size esc) =
        o.Links.map (renderLink size esc) := by
      rw [List.map_map]
      exact List.map_congr_left (fun l _ => rfl)
    simp only [renderObject]
    rw [hmap]
  have hfold : ∀ (os : List LsObject) (st : List String × String),
      (os.map (fun o =>
        ({ Hash := o.Hash
           Links := o.Links.map (fun l =>
             { l with Mode := fMode l, ModTime := fTime l }) } : LsObject))).foldl
        (renderObject headers size (args.length > 1) ib esc) st =
      os.foldl (renderObject headers size (args.length > 1) ib esc) st := by
    intro os
    induction os with
    | nil => intro st; rfl
    | cons o os ih =>
      intro st
      simp only [List.map_cons, List.foldl_cons]
      rw [hobj st o]
      exact ih _
  simp only [tabularOutput]
  exact hfold out.Objects ([], last)

/-! Claim C6: the single-path empty-directory scenario. -/

/-- Claim C6 (amended): for a run with a single requested (nonempty) path
that resolves to an empty directory, batch mode yields exactly one group
with an empty entries sequence; the rendered output for that unit contains
no group label line — the `<groupKey>:` label is only printed when more
than one path was requested — and consists exactly of a header row when
headers are enabled and nothing otherwise: zero entry rows. -/
theorem ls_single_empty_dir_render (headers size resolveType resolveSize : Bool)
    (parse : String → Except String String)
    (ls : String → Bool → TraversalResult) (enc : String → String)
    (esc : String → String) (p : String) (hpne : p ≠ "")
    (Hok : pathOutcome parse ls (resolveSize || resolveType) p = none)
    (Hempty : pathLinks parse ls enc (resolveSize || resolveType) p = []) :
    (LsCmdRun false resolveType resolveSize parse ls enc [p]).emitted =
      [{ Objects := [{ Hash := p, Links := [] }] }] ∧
    (tabularOutput headers size [p] esc
        { Objects := [{ Hash := p, Links := [] }] } "" false).1 =
      (if headers then [headerLine size] else []) := by
  constructor
  · unfold LsCmdRun
    rw [runLoop_cons_ok false _ parse ls enc p [] [] [] [] Hok, runLoop_nil]
    simp [batchObject, Hempty, sortLinks]
  · cases headers <;> simp [tabularOutput, renderObject, hpne, headerLine]

def parseOkW : String → Except String String := fun p => Except.ok p

def lsEmptyW : String → Bool → TraversalResult :=
  fun _ _ => { entries := [], err := none }

def idW : String → String := fun s => s

/-- Claim C6 counterexample: with the single requested path `"/one"`
resolving to an empty directory, batch mode does yield the single empty
group, but the text rendered for it (headers and size column enabled) is
exactly the header row: it contains no `"/one:"` group label line —
`tabularOutput` only prints labels when more than one path was requested —
so the rendered output does not contain a group label line as the claim
states. -/
theorem ls_single_empty_dir_counterexample :
    (LsCmdRun false true true parseOkW lsEmptyW idW ["/one"]).emitted =
      [{ Objects := [{ Hash := "/one", Links := [] }] }] ∧
    (tabularOutput true true ["/one"] idW
        { Objects := [{ Hash := "/one", Links := [] }] } "" false).1 =
      ["Hash\tSize\tName"] ∧
    "/one:" ∉ (tabularOutput true true ["/one"] idW
        { Objects := [{ Hash := "/one", Links := [] }] } "" false).1 := by
  refine ⟨?_, ?_, ?_⟩
  · simp [LsCmdRun, runLoop, parseOkW, lsEmptyW, sortLinks]
  · simp [tabularOutput, renderObject, headerLine]
  · simp [tabularOutput, renderObject, headerLine]

/-! Concrete fixtures for the witnesses. -/

def encW : String → String := fun s => "Qm" ++ s

def parseW : String → Except String String := fun p =>
  if p = "bad" then Except.error "invalid path" else Except.ok ("/ipfs/" ++ p)

def lsW : String → Bool → TraversalResult := fun q _ =>
  if q = "/ipfs/a" then
    { entries :=
        [{ Name := "z", Cid := "cz", Size := 1, Typ := 1, Target := ""
           Mode := 0, ModTime := 0 },
         { Name := "m", Cid := "cm", Size := 2, Typ := 2, Target := ""
           Mode := 0, ModTime := 0 }]
      err := none }
  else if q = "/ipfs/err" then
    { entries :=
        [{ Name := "x", Cid := "cx", Size := 3, Typ := 1, Target := ""
           Mode := 0, ModTime := 0 }]
      err := some "boom" }
  else { entries := [], err := none }

theorem ls_batch_one_sorted_unit_witness :
    (∀ p ∈ ["a", "b"], pathOutcome parseW lsW (true || true) p = none) ∧
    ((LsCmdRun false true true parseW lsW encW ["a", "b"]).err = none ∧
     (LsCmdRun false true true parseW lsW encW ["a", "b"]).emitted =
       [{ Objects := ["a", "b"].map (batchObject parseW lsW encW (true || true)) }] ∧
     ∀ u ∈ (LsCmdRun false true true parseW lsW encW ["a", "b"]).emitted,
       u.Objects.length = (["a", "b"] : List String).length ∧
       ∀ o ∈ u.Objects, o.Links.Pairwise (fun a b => nameLe a b = true)) :=
  ⟨by decide,
    ls_batch_one_sorted_unit true true parseW lsW encW ["a", "b"] (by decide)⟩

theorem ls_stream_unit_per_entry_witness :
    (∀ p ∈ ["a", "b"], pathOutcome parseW lsW (true || true) p = none) ∧
    ((LsCmdRun true true true parseW lsW encW ["a", "b"]).err = none ∧
     (LsCmdRun true true true parseW lsW encW ["a", "b"]).emitted =
       ["a", "b"].flatMap (streamUnits parseW lsW encW (true || true)) ∧
     (∀ u ∈ (LsCmdRun true true true parseW lsW encW ["a", "b"]).emitted,
       ∃ p link, p ∈ ["a", "b"] ∧
         u = { Objects := [{ Hash := p, Links := [link] }] }) ∧
     (LsCmdRun true true true parseW lsW encW ["a", "b"]).emitted.length =
       ((["a", "b"] : List String).map (fun p =>
         (pathLinks parseW lsW encW (true || true) p).length)).sum) :=
  ⟨by decide,
    ls_stream_unit_per_entry true true parseW lsW encW ["a", "b"] (by decide)⟩

theorem ls_error_aborts_witness :
    (∀ q ∈ ["a"], pathOutcome parseW lsW (true || true) q = none) ∧
    pathOutcome parseW lsW (true || true) "err" = some "boom" ∧
    ((∀ stream,
        LsCmdRun stream true true parseW lsW encW (["a"] ++ "err" :: ["b"]) =
          LsCmdRun stream true true parseW lsW encW (["a"] ++ ["err"])) ∧
     (∀ stream,
        (LsCmdRun stream true true parseW lsW encW (["a"] ++ "err" :: ["b"])).err =
          some "boom") ∧
     (LsCmdRun false true true parseW lsW encW (["a"] ++ "err" :: ["b"])).emitted =
       [] ∧
     (LsCmdRun true true true parseW lsW encW (["a"] ++ "err" :: ["b"])).emitted =
       ["a"].flatMap (streamUnits parseW lsW encW (true || true)) ++
         streamUnits parseW lsW encW (true || true) "err") :=
  ⟨by decide, by decide,
    ls_error_aborts true true parseW lsW encW ["a"] ["b"] "err" "boom"
      (by decide) (by decide)⟩

def dirLinkW : LsLink :=
  { Name := "nm", Hash := "h", Size := 5, Typ := .TDirectory, Target := ""
    Mode := 0, ModTime := 0 }

theorem ls_dir_entry_rendering_witness :
    isDirKind dirLinkW.Typ = true ∧
    renderLink true (fun s => s) dirLinkW =
      dirLinkW.Hash ++ "\t-\t" ++ dirLinkW.Name ++ "/" :=
  ⟨by decide, (ls_dir_entry_rendering true (fun s => s) dirLinkW).1 (by decide)⟩

theorem ls_group_label_header_once_witness :
    (["a", "b"] : List String).length > 1 ∧ ("prev" : String) ≠ "g" ∧
    tabularOutput true true ["a", "b"] (fun s => s)
        { Objects := [{ Hash := "g", Links := [] }] } "prev" false =
      ((if ("prev" : String) ≠ "" then [""] else []) ++ ["g" ++ ":"] ++
        (if true then [headerLine true] else []) ++
        ([] : List LsLink).map (renderLink true (fun s => s)), "g") :=
  ⟨by decide, by decide,
    (ls_group_label_header_once true true ["a", "b"] (fun s => s)
      { Hash := "g", Links := [] } "prev" (by decide)).1 (by decide)⟩

theorem ls_unknown_type_maps_to_raw_witness :
    (42 : FileType) ≠ TFileC ∧ (42 : FileType) ≠ TDirectoryC ∧
    (42 : FileType) ≠ TSymlinkC ∧ classifyType 42 = .TRaw :=
  ⟨by decide, by decide, by decide,
    ls_unknown_type_maps_to_raw.2.2.2.1 42 (by decide) (by decide) (by decide)⟩

theorem ls_resolve_children_coupling_witness :
    ("/ipfs/a", true) ∈ (LsCmdRun true true true parseW lsW encW ["a"]).calls ∧
    ("/ipfs/a", true).2 = (true || true) :=
  ⟨by decide,
    ls_resolve_children_coupling true true true parseW lsW encW ["a"]
      ("/ipfs/a", true) (by decide)⟩

theorem ls_single_empty_dir_render_witness :
    ("/one" : String) ≠ "" ∧
    pathOutcome parseOkW lsEmptyW (true || true) "/one" = none ∧
    pathLinks parseOkW lsEmptyW idW (true || true) "/one" = [] ∧
    ((LsCmdRun false true true parseOkW lsEmptyW idW ["/one"]).emitted =
        [{ Objects := [{ Hash := "/one", Links := [] }] }] ∧
      (tabularOutput true true ["/one"] idW
          { Objects := [{ Hash := "/one", Links := [] }] } "" false).1 =
        (if true then [headerLine true] else [])) :=
  ⟨by decide, by decide, by decide,
    ls_single_empty_dir_render true true true true parseOkW lsEmptyW idW idW
      "/one" (by decide) (by decide) (by decide)⟩

end KuboLs
